import Mathlib

/-!
Verification of the affine transform comparison / fallback-selection logic,
the conditional downsampler and the ROI aggregation helper of the
`nibabies` BOLD registration workflows
(`nibabies/workflows/bold/registration.py`, `nibabies/workflows/bold/alignment.py`).

Matrices and coordinates are embedded over `ℚ`: the Python code computes with
floats, and we model that arithmetic exactly over the rationals.  The one
irrational operation, the final Euclidean square root, is kept out of the
computable definitions (only squared quantities are computed) and appears
via `Real.sqrt` in the statements, which is sound because `x ↦ x²` is an
order isomorphism on the nonnegative reals.
-/

open scoped BigOperators

namespace Nibabies

/-- A 3D point (or vector) with rational coordinates. -/
abbrev Point := Fin 3 → ℚ

/-- A 3×3 rational matrix (the linear block of an affine). -/
abbrev Mat3 := Matrix (Fin 3) (Fin 3) ℚ

/-- A 4×4 rational matrix, the representation of an affine transform used by
the LTA files consumed by `compare_xforms`. -/
abbrev Mat4 := Matrix (Fin 4) (Fin 4) ℚ

/-- Homogeneous coordinates of a 3D point: `(p 0, p 1, p 2, 1)`. -/
def hom (p : Point) : Fin 4 → ℚ := ![p 0, p 1, p 2, 1]

/-- Application of a 4×4 matrix to a 3D point in homogeneous coordinates,
keeping the first three output coordinates.  This is `np.dot(affine, pts)[0:3]`
as performed by nipype's `_calc_norm_affine`. -/
def applyAffine (T : Mat4) (p : Point) : Point :=
  ![T.mulVec (hom p) 0, T.mulVec (hom p) 1, T.mulVec (hom p) 2]

/-- Squared Euclidean norm of a 3D vector. -/
def sqNorm (v : Point) : ℚ := ∑ i, v i ^ 2

/-- Modelled from the spec: the reference points used by the displacement
metric.  The metric itself lives in nipype's `_calc_norm_affine`
(`nipype.algorithms.rapidart`), which is not part of this repository; the
spec describes the points as the midpoints of the six faces of a cube of
side length 2 centered at the origin, `{(±1,0,0), (0,±1,0), (0,0,±1)}`. -/
def facePoints : List Point :=
  [![1, 0, 0], ![-1, 0, 0], ![0, 1, 0], ![0, -1, 0], ![0, 0, 1], ![0, 0, -1]]

/-- Squared displacement of a single reference point `p` between the two
transforms: squared Euclidean distance between `r` applied to `p` and `b`
applied to `p`. -/
def pointDispSq (r b : Mat4) (p : Point) : ℚ :=
  sqNorm (applyAffine r p - applyAffine b p)

/-- Modelled from the spec: the squared displacement metric of
`_calc_norm_affine` (nipype, not part of this repository) with
`use_differences=True`: the maximum over the reference points of the squared
Euclidean distance between the two transformed images of the point.  The
displacement itself is its square root. -/
def displacementSq (r b : Mat4) : ℚ :=
  (facePoints.map (pointDispSq r b)).foldr max 0

/-- `compare_xforms(lta_list, norm_threshold=15)` from
`nibabies/workflows/bold/registration.py`: loads the two affines
(`lta_list[0]` the BBR result, `lta_list[1]` the fallback result), computes
the normalized displacement between them and returns
`norm[1] > norm_threshold`.  The comparison
`sqrt (displacementSq) > norm_threshold` is expressed square-free:
for `d ≥ 0`, `sqrt d > t ↔ t < 0 ∨ t² < d`
(see `compare_xforms_eq_sqrt_lt`). -/
def compare_xforms (lta_list : Mat4 × Mat4) (norm_threshold : ℚ := 15) : Bool :=
  decide (norm_threshold < 0) ||
    decide (norm_threshold ^ 2 < displacementSq lta_list.1 lta_list.2)

/-- Build a 4×4 affine matrix from a 3×3 linear block and a translation,
with the standard bottom row `[0, 0, 0, 1]`. -/
def mkAffine (A : Mat3) (t : Point) : Mat4 :=
  Matrix.of
    ![![A 0 0, A 0 1, A 0 2, t 0],
      ![A 1 0, A 1 1, A 1 2, t 1],
      ![A 2 0, A 2 1, A 2 2, t 2],
      ![0, 0, 0, 1]]

/-- A 4×4 matrix is a well-formed affine: some linear block and translation
with bottom row `[0,0,0,1]`. -/
def IsAffineMat (M : Mat4) : Prop := ∃ A t, M = mkAffine A t

/-- A 4×4 matrix is a rigid transform: an orthogonal linear block plus a
translation. -/
def IsRigidMat (R : Mat4) : Prop :=
  ∃ Q s, R = mkAffine Q s ∧ Q.transpose * Q = 1

/-- The 3×3 linear block of a 4×4 matrix. -/
def linBlock (M : Mat4) : Mat3 := fun i j => M i.castSucc j.castSucc

/-- A well-shaped affine whose 3×3 block is the zero matrix: it is not
invertible, hence not a "valid" transform in the sense of the spec. -/
def singularXfm : Mat4 := mkAffine 0 ![5, 0, 0]

/-- The geometry of a volumetric image: array shape, the 3×3 linear block of
the voxel-to-world affine (`img.affine[:3, :3]`) and its translation column
(`img.affine[:3, 3]`). -/
structure Grid where
  shape : Fin 3 → ℕ
  rot : Mat3
  off : Point

/-- An in-memory image: a grid plus voxel data (indexed by integer voxel
coordinates; values are the floating point data modelled over `ℚ`). -/
structure Img where
  grid : Grid
  data : (Fin 3 → ℤ) → ℚ

/-- The external resampler collaborator (`nitransforms`
`Affine(reference=newref).apply(img)`): produces the data of `img` resampled
onto a reference grid.  Its numerics are owned by an external library, so it
is a parameter of the embedding. -/
abbrev Resampler := Img → Grid → (Fin 3 → ℤ) → ℚ

/-- The external smoothing collaborator (`scipy` `gaussian_filter(data, sigma)`,
called with `sigma = scaling`).  A parameter of the embedding for the same
reason. -/
abbrev GaussianFilter := (Fin 3 → ℚ) → ((Fin 3 → ℤ) → ℚ) → (Fin 3 → ℤ) → ℚ

/-- The new grid computed by `_conditional_downsampling` when it resamples:
`scaling = zoom_th / zooms`, `newrot = np.diag(scaling).dot(affine[:3,:3])`,
`newshape = np.ceil(shape / scaling)`, and the offset recenters the new grid
on the old grid's center
(`old_center = affine.dot(hstack(0.5*(shape-1), 1))[:3]`,
`offset = old_center - newrot.dot((newshape-1)*0.5)`). -/
def downsampleGrid (g : Grid) (zooms : Fin 3 → ℚ) (zoom_th : ℚ) : Grid :=
  let scaling : Fin 3 → ℚ := fun i => zoom_th / zooms i
  let newrot : Mat3 := Matrix.of fun i j => scaling i * g.rot i j
  let newshape : Fin 3 → ℕ := fun j => (Int.ceil ((g.shape j : ℚ) / scaling j)).toNat
  let oldCenter : Point := fun i =>
    (∑ j, g.rot i j * (((g.shape j : ℚ) - 1) / 2)) + g.off i
  let offset : Point := fun i =>
    oldCenter i - ∑ j, newrot i j * (((newshape j : ℚ) - 1) / 2)
  ⟨newshape, newrot, offset⟩

/-- `_conditional_downsampling(in_file, in_mask, zoom_th=4.0)` from
`nibabies/workflows/bold/registration.py`.  `zooms` models
`img.header.get_zooms()[:3]` of `in_file` (the nibabel header voxel sizes,
equal to the Euclidean norms of the columns of the affine's 3×3 block); it is
an explicit argument because header I/O is owned by the external image
library.  If no voxel dimension is below the threshold the inputs are
returned unchanged; otherwise the reference is resampled onto the new grid
and the mask is Gaussian-smoothed (sigma = scaling), resampled, and
re-thresholded at 0.5 to the values 0 and 1. -/
def _conditional_downsampling (resample : Resampler) (gaussianFilter : GaussianFilter)
    (zooms : Fin 3 → ℚ) (in_file in_mask : Img) (zoom_th : ℚ := 4) : Img × Img :=
  if ∃ j, zooms j < zoom_th then
    let scaling : Fin 3 → ℚ := fun i => zoom_th / zooms i
    let ng := downsampleGrid in_file.grid zooms zoom_th
    let out_file : Img := ⟨ng, resample in_file ng⟩
    let mdata := gaussianFilter scaling in_mask.data
    let newmaskData := resample ⟨in_mask.grid, mdata⟩ ng
    let out_mask : Img := ⟨ng, fun v => if 1 / 2 < newmaskData v then 1 else 0⟩
    (out_file, out_mask)
  else (in_file, in_mask)

/-- Fixed image used to instantiate the downsampler theorems. -/
def wImg : Img := ⟨⟨fun _ => 10, 1, 0⟩, fun _ => 0⟩

/-- Trivial stand-in for the external resampler. -/
def wRes : Resampler := fun _ _ _ => 0

/-- Trivial stand-in for the external Gaussian filter. -/
def wGau : GaussianFilter := fun _ d => d

/-- Diagonal-affine image used by the C6 witness: voxel sizes (1, 2, 8). -/
def wImg2 : Img := ⟨⟨fun _ => 10, Matrix.of ![![1, 0, 0], ![0, 2, 0], ![0, 0, 8]], 0⟩, fun _ => 0⟩

/-- Non-axis-aligned affine block for the C6 counterexample.  Its columns
have Euclidean norms 5, 16 and 1, all rational. -/
def cexRot : Mat3 := Matrix.of ![![3, 0, 0], ![4, 16, 0], ![0, 0, 1]]

/-- Reference image of the C6 counterexample. -/
def cexImg : Img := ⟨⟨fun _ => 10, cexRot, 0⟩, fun _ => 0⟩

/-- Trivial resampler for the C6 counterexample. -/
def cexRes : Resampler := fun _ _ _ => 0

/-- Trivial smoothing filter for the C6 counterexample. -/
def cexGau : GaussianFilter := fun _ d => d

/-- Header voxel sizes of `cexImg`: the column norms of `cexRot`. -/
def cexZooms : Fin 3 → ℚ := ![5, 16, 1]

/-- First downsampler call of the C6 counterexample. -/
def cexOut : Img × Img := _conditional_downsampling cexRes cexGau cexZooms cexImg cexImg 4

/-- Header voxel sizes of the first call's output: the column norms of its
affine block, which are 13/5, 4 and 4 — not all equal to the threshold 4. -/
def cexZooms2 : Fin 3 → ℚ := ![13 / 5, 4, 4]

/-- nipype `Merge(2)`: collects its two inputs into the list `[in1, in2]`.
In both registration workflows `in1` is the BBR transform
(`bbregister` / `flt_bbr`) and `in2` the baseline transform
(`mri_coreg` / `lta_to_fsl`). -/
def niuMerge2 {α : Type} (in1 in2 : α) : List α := [in1, in2]

/-- nipype `Select`: returns `inlist[index]`. -/
def niuSelect {α : Type} (inlist : List α) (index : ℕ) : Option α :=
  inlist.get? index

/-- A Python boolean used as a list index counts as the integer 0 or 1. -/
def pyBoolToIndex (b : Bool) : ℕ := cond b 1 0

/-- A Python value relevant to `format_agg_rois`: a string or an integer. -/
inductive PyVal where
  | str (s : String)
  | int (n : ℤ)

/-- Python attribute dispatch for `.strip()`: defined on `str` values,
raises `AttributeError` on `int` values. -/
def PyVal.strip : PyVal → Except String PyVal
  | .str s => .ok (.str s.trim)
  | .int _ => .error "AttributeError: int object has no attribute strip"

/-- Python `str * x`: sequence repetition when `x` is an integer,
`TypeError` otherwise. -/
def pyStrMul (s : String) : PyVal → Except String String
  | .int n => .ok (String.join (List.replicate n.toNat s))
  | .str _ => .error "TypeError: cannot multiply sequence by non-int"

/-- `format_agg_rois(rois)` from `nibabies/workflows/bold/alignment.py`:
`return rois[0], rois[1:], "-add %s " * (len(rois) - 1).strip()`.
Python precedence binds the `.strip()` call to the integer
`len(rois) - 1`, not to the string product; `rois[0]` raises `IndexError`
on an empty list first. -/
def format_agg_rois (rois : List String) :
    Except String (String × List String × String) :=
  match rois with
  | [] => .error "IndexError: list index out of range"
  | r :: rest => do
      let stripped ← (PyVal.int (((r :: rest).length : ℤ) - 1)).strip
      let opStr ← pyStrMul "-add %s " stripped
      pure (r, rest, opStr)

lemma sqNorm_nonneg (v : Point) : 0 ≤ sqNorm v := by
  unfold sqNorm
  positivity

lemma pointDispSq_nonneg (r b : Mat4) (p : Point) : 0 ≤ pointDispSq r b p :=
  sqNorm_nonneg _

lemma foldr_max_nonneg (l : List ℚ) : 0 ≤ l.foldr max 0 := by
  induction l with
  | nil => simp
  | cons x xs ih => exact le_max_of_le_right ih

lemma displacementSq_nonneg (r b : Mat4) : 0 ≤ displacementSq r b :=
  foldr_max_nonneg _

/-- The square-free boolean in `compare_xforms` is exactly the comparison
`norm_threshold < sqrt (displacementSq)` performed by the source. -/
lemma compare_xforms_eq_sqrt_lt (r b : Mat4) (t : ℚ) :
    compare_xforms (r, b) t = true ↔
      (t : ℝ) < Real.sqrt ((displacementSq r b : ℚ) : ℝ) := by
  unfold compare_xforms
  rcases lt_or_le t 0 with ht | ht
  · simp only [ht, decide_True, Bool.true_or, true_iff]
    calc (t : ℝ) < 0 := by exact_mod_cast ht
    _ ≤ Real.sqrt ((displacementSq r b : ℚ) : ℝ) := Real.sqrt_nonneg _
  · have hts : ¬ (t < 0) := not_lt.mpr ht
    have htR : (0 : ℝ) ≤ (t : ℝ) := by exact_mod_cast ht
    simp only [hts, decide_False, Bool.false_or, decide_eq_true_eq]
    rw [Real.lt_sqrt htR]
    constructor
    · intro h
      exact_mod_cast h
    · intro h
      exact_mod_cast h

lemma apply_mkAffine (A : Mat3) (t : Point) (p : Point) :
    applyAffine (mkAffine A t) p = A.mulVec p + t := by
  funext i
  fin_cases i <;>
    simp [applyAffine, mkAffine, hom, Matrix.mulVec, Matrix.dotProduct,
      Fin.sum_univ_four, Fin.sum_univ_three, Matrix.vecHead, Matrix.vecTail]

lemma apply_one (p : Point) : applyAffine 1 p = p := by
  funext i
  simp only [applyAffine, Matrix.one_mulVec]
  fin_cases i <;> rfl

lemma one_eq_mkAffine : (1 : Mat4) = mkAffine 1 0 := by
  ext i j
  fin_cases i <;> fin_cases j <;>
    simp [mkAffine, Matrix.one_apply, Matrix.vecHead, Matrix.vecTail]

lemma mkAffine_mul (Q : Mat3) (s : Point) (A : Mat3) (t : Point) :
    mkAffine Q s * mkAffine A t = mkAffine (Q * A) (Q.mulVec t + s) := by
  ext i j
  fin_cases i <;> fin_cases j <;>
    simp [mkAffine, Matrix.mul_apply, Matrix.mulVec, Matrix.dotProduct,
      Fin.sum_univ_four, Fin.sum_univ_three, Matrix.vecHead, Matrix.vecTail]

lemma sqrt_cast_foldr_max (l : List ℚ) :
    Real.sqrt ((l.foldr max 0 : ℚ) : ℝ)
      = (l.map fun q : ℚ => Real.sqrt ((q : ℝ))).foldr max 0 := by
  have hmono : Monotone Real.sqrt := fun a b h => Real.sqrt_le_sqrt h
  induction l with
  | nil => simp
  | cons x xs ih =>
      simp only [List.foldr, List.map, Rat.cast_max, hmono.map_max, ih]

lemma sqNorm_eq_dot (v : Point) : sqNorm v = Matrix.dotProduct v v := by
  simp [sqNorm, Matrix.dotProduct, sq]

lemma sqNorm_mulVec (Q : Mat3) (hQ : Q.transpose * Q = 1) (v : Point) :
    sqNorm (Q.mulVec v) = sqNorm v := by
  rw [sqNorm_eq_dot, sqNorm_eq_dot, Matrix.dotProduct_mulVec,
    ← Matrix.mulVec_transpose, Matrix.mulVec_mulVec, hQ, Matrix.one_mulVec]

lemma apply_mkAffine_mul (Q : Mat3) (s : Point) (A : Mat3) (t : Point) (p : Point) :
    applyAffine (mkAffine Q s * mkAffine A t) p
      = Q.mulVec (applyAffine (mkAffine A t) p) + s := by
  rw [mkAffine_mul, apply_mkAffine, apply_mkAffine, Matrix.mulVec_add,
    ← Matrix.mulVec_mulVec]
  abel

lemma pointDispSq_rigid (Q : Mat3) (s : Point) (hQ : Q.transpose * Q = 1)
    (A : Mat3) (t : Point) (B : Mat3) (u : Point) (p : Point) :
    pointDispSq (mkAffine Q s * mkAffine A t) (mkAffine Q s * mkAffine B u) p
      = pointDispSq (mkAffine A t) (mkAffine B u) p := by
  unfold pointDispSq
  rw [apply_mkAffine_mul, apply_mkAffine_mul]
  have hsub :
      (Q.mulVec (applyAffine (mkAffine A t) p) + s)
          - (Q.mulVec (applyAffine (mkAffine B u) p) + s)
        = Q.mulVec (applyAffine (mkAffine A t) p - applyAffine (mkAffine B u) p) := by
    rw [Matrix.mulVec_sub]
    abel
  rw [hsub, sqNorm_mulVec Q hQ]

lemma displacementSq_congr (r b r' b' : Mat4)
    (h : ∀ p, pointDispSq r b p = pointDispSq r' b' p) :
    displacementSq r b = displacementSq r' b' := by
  unfold displacementSq
  rw [funext h]

lemma sqNorm_zero : sqNorm 0 = 0 := by
  simp [sqNorm]

lemma displacementSq_self (M : Mat4) : displacementSq M M = 0 := by
  have hpt : ∀ p, pointDispSq M M p = 0 := by
    intro p
    unfold pointDispSq
    rw [sub_self, sqNorm_zero]
  unfold displacementSq facePoints
  simp [hpt]

lemma displacementSq_translation (t : Point) :
    displacementSq (mkAffine 1 t) 1 = sqNorm t := by
  have hpt : ∀ p : Point, pointDispSq (mkAffine 1 t) 1 p = sqNorm t := by
    intro p
    unfold pointDispSq
    rw [apply_mkAffine, apply_one, Matrix.one_mulVec]
    congr 1
    abel
  unfold displacementSq facePoints
  simp only [List.map, List.foldr, hpt]
  rw [max_eq_left (sqNorm_nonneg t), max_self, max_self, max_self, max_self,
    max_self]

lemma pointDispSq_comm (r b : Mat4) (p : Point) :
    pointDispSq r b p = pointDispSq b r p := by
  unfold pointDispSq sqNorm
  apply Finset.sum_congr rfl
  intro i _
  simp only [Pi.sub_apply]
  ring

lemma pointDispSq_expand (r b : Mat4) (p : Point) :
    pointDispSq r b p
      = (applyAffine r p 0 - applyAffine b p 0) ^ 2
        + (applyAffine r p 1 - applyAffine b p 1) ^ 2
        + (applyAffine r p 2 - applyAffine b p 2) ^ 2 := by
  unfold pointDispSq sqNorm
  rw [Fin.sum_univ_three]
  simp [Pi.sub_apply]

lemma applyAffine_singular (p : Point) : applyAffine singularXfm p = ![5, 0, 0] := by
  unfold singularXfm
  rw [apply_mkAffine, Matrix.zero_mulVec, zero_add]

lemma displacementSq_singular : displacementSq singularXfm 1 = 36 := by
  have h : ∀ p : Point,
      pointDispSq singularXfm 1 p = (5 - p 0) ^ 2 + (0 - p 1) ^ 2 + (0 - p 2) ^ 2 := by
    intro p
    rw [pointDispSq_expand, applyAffine_singular, apply_one]
    simp [Matrix.vecHead, Matrix.vecTail]
  unfold displacementSq facePoints
  simp only [List.map, List.foldr, h]
  norm_num [Matrix.vecHead, Matrix.vecTail, max_def]

lemma linBlock_singular : linBlock singularXfm = 0 := by
  ext i j
  fin_cases i <;> fin_cases j <;> rfl

/-- C1: for every pair of affine transforms and every positive threshold, the
fallback decision of `compare_xforms` equals the strict comparison
`displacement > norm_threshold`: it is `true` exactly when the threshold is
below the displacement, `false` exactly when the displacement is at most the
threshold (in particular `false` at exact equality), and the default
threshold is 15. -/
theorem compare_xforms_fallback_threshold (r b : Mat4) (t : ℚ) (_ht : 0 < t) :
    (compare_xforms (r, b) t = true ↔
        (t : ℝ) < Real.sqrt ((displacementSq r b : ℚ) : ℝ)) ∧
    (compare_xforms (r, b) t = false ↔
        Real.sqrt ((displacementSq r b : ℚ) : ℝ) ≤ (t : ℝ)) ∧
    ((t : ℝ) = Real.sqrt ((displacementSq r b : ℚ) : ℝ) →
        compare_xforms (r, b) t = false) ∧
    (∀ q : Mat4 × Mat4, compare_xforms q = compare_xforms q 15) := by
  have hiff := compare_xforms_eq_sqrt_lt r b t
  have hfalse : compare_xforms (r, b) t = false ↔
      Real.sqrt ((displacementSq r b : ℚ) : ℝ) ≤ (t : ℝ) := by
    constructor
    · intro h
      have hne : ¬ compare_xforms (r, b) t = true := by simp [h]
      exact not_lt.mp (fun hlt => hne (hiff.mpr hlt))
    · intro h
      have hne : ¬ compare_xforms (r, b) t = true := by
        rw [hiff]
        exact not_lt.mpr h
      exact Bool.not_eq_true _ ▸ hne
  refine ⟨hiff, hfalse, ?_, fun q => rfl⟩
  intro heq
  exact hfalse.mpr (le_of_eq heq.symm)

/-- C1 witness: at the identity pair with the default threshold 15, the
hypothesis 0 < 15 holds and the fallback decision is false. -/
theorem compare_xforms_fallback_threshold_witness :
    compare_xforms (1, 1) 15 = false := by
  have h := compare_xforms_fallback_threshold 1 1 15 (by norm_num)
  refine h.2.1.mpr ?_
  rw [displacementSq_self]
  norm_num

/-- C2: the displacement of `compare_xforms` is the maximum, over the six
face midpoints of the unit cube, of the Euclidean distance between the two
transformed images of the midpoint. -/
theorem displacement_is_max_face_midpoint_distance (r b : Mat4) :
    Real.sqrt ((displacementSq r b : ℚ) : ℝ)
      = (([![1, 0, 0], ![-1, 0, 0], ![0, 1, 0], ![0, -1, 0], ![0, 0, 1],
            ![0, 0, -1]] : List Point).map fun p =>
          Real.sqrt (((applyAffine r p 0 - applyAffine b p 0) ^ 2
            + (applyAffine r p 1 - applyAffine b p 1) ^ 2
            + (applyAffine r p 2 - applyAffine b p 2) ^ 2 : ℚ))).foldr max 0 := by
  rw [show ([![1, 0, 0], ![-1, 0, 0], ![0, 1, 0], ![0, -1, 0], ![0, 0, 1],
      ![0, 0, -1]] : List Point) = facePoints from rfl]
  unfold displacementSq
  rw [sqrt_cast_foldr_max, List.map_map]
  have hfg : ((fun q : ℚ => Real.sqrt ((q : ℝ))) ∘ pointDispSq r b)
      = fun p : Point =>
          Real.sqrt (((applyAffine r p 0 - applyAffine b p 0) ^ 2
            + (applyAffine r p 1 - applyAffine b p 1) ^ 2
            + (applyAffine r p 2 - applyAffine b p 2) ^ 2 : ℚ)) := by
    funext p
    simp only [Function.comp_apply]
    have hp : pointDispSq r b p
        = (applyAffine r p 0 - applyAffine b p 0) ^ 2
          + (applyAffine r p 1 - applyAffine b p 1) ^ 2
          + (applyAffine r p 2 - applyAffine b p 2) ^ 2 := by
      unfold pointDispSq sqNorm
      rw [Fin.sum_univ_three]
      simp [Pi.sub_apply]
    rw [hp]
  rw [hfg]

/-- C3: with the identity as baseline and a pure translation by `t` as the
refined transform, the displacement is the Euclidean norm of `t`; for the
identity pair the displacement is 0 and the fallback is false for every
positive threshold. -/
theorem compare_xforms_translation_norm (t : Point) :
    Real.sqrt ((displacementSq (mkAffine 1 t) 1 : ℚ) : ℝ)
      = Real.sqrt ((t 0 ^ 2 + t 1 ^ 2 + t 2 ^ 2 : ℚ)) ∧
    displacementSq 1 1 = 0 ∧
    (∀ th : ℚ, 0 < th → compare_xforms (1, 1) th = false) := by
  refine ⟨?_, displacementSq_self 1, ?_⟩
  · have h : displacementSq (mkAffine 1 t) 1 = t 0 ^ 2 + t 1 ^ 2 + t 2 ^ 2 := by
      rw [displacementSq_translation]
      unfold sqNorm
      rw [Fin.sum_univ_three]
    rw [h]
  · intro th hth
    have h1 : ¬ (th < 0) := not_lt.mpr hth.le
    have h2 : ¬ (th ^ 2 < displacementSq 1 1) := by
      rw [displacementSq_self]
      exact not_lt.mpr (sq_nonneg th)
    unfold compare_xforms
    simp [h1, h2]

/-- C3 witness: for the zero translation the displacement norm equality holds
and the fallback for the identity pair at threshold 1 is false. -/
theorem compare_xforms_translation_norm_witness :
    compare_xforms (1, 1) 1 = false :=
  (compare_xforms_translation_norm 0).2.2 1 (by norm_num)

/-- C4: comparing `(R·refined, R·baseline)` for a rigid `R` yields the same
displacement, and hence the same fallback decision at every threshold, as
comparing `(refined, baseline)`. -/
theorem compare_xforms_rigid_invariance (r b R : Mat4)
    (hr : IsAffineMat r) (hb : IsAffineMat b) (hR : IsRigidMat R) :
    displacementSq (R * r) (R * b) = displacementSq r b ∧
    ∀ th : ℚ, compare_xforms (R * r, R * b) th = compare_xforms (r, b) th := by
  obtain ⟨A, t, rfl⟩ := hr
  obtain ⟨B, u, rfl⟩ := hb
  obtain ⟨Q, s, rfl, hQ⟩ := hR
  have hd := displacementSq_congr _ _ _ _ (pointDispSq_rigid Q s hQ A t B u)
  refine ⟨hd, fun th => ?_⟩
  unfold compare_xforms
  rw [hd]

/-- C4 witness: a quarter turn about the z axis composed with a translation
is rigid, and left-composing it with a translated pair leaves the
displacement and decision unchanged. -/
theorem compare_xforms_rigid_invariance_witness :
    displacementSq
        (mkAffine ![![0, -1, 0], ![1, 0, 0], ![0, 0, 1]] ![1, 2, 3]
            * mkAffine 1 ![1, 0, 0])
        (mkAffine ![![0, -1, 0], ![1, 0, 0], ![0, 0, 1]] ![1, 2, 3] * 1)
      = displacementSq (mkAffine 1 ![1, 0, 0]) 1 := by
  have h := compare_xforms_rigid_invariance (mkAffine 1 ![1, 0, 0]) 1
    (mkAffine ![![0, -1, 0], ![1, 0, 0], ![0, 0, 1]] ![1, 2, 3])
    ⟨1, ![1, 0, 0], rfl⟩ ⟨1, 0, one_eq_mkAffine⟩
    ⟨![![0, -1, 0], ![1, 0, 0], ![0, 0, 1]], ![1, 2, 3], rfl, by
      ext i j
      fin_cases i <;> fin_cases j <;>
        simp [Matrix.mul_apply, Matrix.transpose_apply, Fin.sum_univ_three,
          Matrix.vecHead, Matrix.vecTail, Matrix.one_apply]⟩
  exact h.1

/-- C5 counterexample: at a well-shaped transform whose 3×3 block is the zero
matrix (determinant 0, not invertible), `compare_xforms` does not fail: it
returns the ordinary boolean result (`false` at the default threshold).  No
`InvalidTransformError` is raised anywhere in the code. -/
theorem compare_xforms_invalid_input_no_failure_cex :
    (linBlock singularXfm).det = 0 ∧ compare_xforms (singularXfm, 1) 15 = false := by
  constructor
  · rw [linBlock_singular]
    simp [Matrix.det_fin_three]
  · unfold compare_xforms
    rw [displacementSq_singular]
    simp only [Bool.or_eq_false_iff, decide_eq_false_iff_not]
    norm_num

/-- C5 amended: `compare_xforms` performs no validity checking of its inputs;
a transform with a non-invertible 3×3 block is accepted and processed
normally, and the usual strict threshold comparison is returned (here the
singular transform sits at displacement 6 from the identity, so the fallback
fires exactly below threshold 6). -/
theorem compare_xforms_singular_processed (th : ℚ) (hth : 0 < th) :
    (linBlock singularXfm).det = 0 ∧
    (compare_xforms (singularXfm, 1) th = true ↔ th < 6) := by
  constructor
  · rw [linBlock_singular]
    simp [Matrix.det_fin_three]
  · unfold compare_xforms
    rw [displacementSq_singular]
    simp only [Bool.or_eq_true, decide_eq_true_eq]
    constructor
    · rintro (h | h)
      · exact absurd h (not_lt.mpr hth.le)
      · nlinarith
    · intro h
      right
      nlinarith

/-- C5 witness: at threshold 3 the singular transform is processed and the
comparison fires. -/
theorem compare_xforms_singular_processed_witness :
    compare_xforms (singularXfm, 1) 3 = true :=
  (compare_xforms_singular_processed 3 (by norm_num)).2.mpr (by norm_num)

/-- C9: `compare_xforms` is symmetric in the two transforms of `lta_list`:
swapping them leaves both the displacement and the boolean result
unchanged. -/
theorem compare_xforms_symmetric (a b : Mat4) (t : ℚ) :
    displacementSq a b = displacementSq b a ∧
    compare_xforms (a, b) t = compare_xforms (b, a) t := by
  have hd := displacementSq_congr a b b a (pointDispSq_comm a b)
  refine ⟨hd, ?_⟩
  unfold compare_xforms
  rw [hd]

/-- C7: when the downsampler does resample, both outputs live on the same new
grid (same shape and affine), and the output mask is binary: every voxel is 0
or 1, for any behaviour of the external smoothing and resampling
collaborators. -/
theorem downsample_common_grid_binary_mask (resample : Resampler)
    (gaussianFilter : GaussianFilter) (zooms : Fin 3 → ℚ) (f m : Img) (th : ℚ)
    (h : ∃ j, zooms j < th) :
    (_conditional_downsampling resample gaussianFilter zooms f m th).1.grid
        = (_conditional_downsampling resample gaussianFilter zooms f m th).2.grid ∧
    ∀ v, (_conditional_downsampling resample gaussianFilter zooms f m th).2.data v = 0
        ∨ (_conditional_downsampling resample gaussianFilter zooms f m th).2.data v = 1 := by
  unfold _conditional_downsampling
  rw [if_pos h]
  refine ⟨rfl, fun v => ?_⟩
  dsimp only
  split
  · right
    rfl
  · left
    rfl

/-- C7 witness: with unit voxels and threshold 4 the resampling branch is
taken and both outputs share one grid. -/
theorem downsample_common_grid_binary_mask_witness :
    (_conditional_downsampling wRes wGau (fun _ => 1) wImg wImg 4).1.grid
      = (_conditional_downsampling wRes wGau (fun _ => 1) wImg wImg 4).2.grid :=
  (downsample_common_grid_binary_mask wRes wGau (fun _ => 1) wImg wImg 4
    ⟨0, by norm_num⟩).1

/-- C6 amended: if every voxel dimension is at least the threshold the
downsampler returns its inputs unchanged.  When it does resample and the
reference affine's 3×3 block is diagonal (axis-aligned voxels, with `zooms`
the true column norms), the output grid's column norms all equal the
threshold, and a second call — whose header zooms are therefore all equal to
the threshold, in particular on the downsampler's own output — is a no-op. -/
theorem downsample_noop_and_diagonal_idempotence (resample : Resampler)
    (gaussianFilter : GaussianFilter) (zooms : Fin 3 → ℚ) (f m : Img) (th : ℚ) :
    ((∀ j, th ≤ zooms j) →
      _conditional_downsampling resample gaussianFilter zooms f m th = (f, m)) ∧
    ((∀ j, 0 < zooms j) →
     (∀ i j, i ≠ j → f.grid.rot i j = 0) →
     (∀ j, zooms j ^ 2 = ∑ i, f.grid.rot i j ^ 2) →
      (∀ j, ∑ i, (downsampleGrid f.grid zooms th).rot i j ^ 2 = th ^ 2) ∧
      (∀ (resample2 : Resampler) (gaussianFilter2 : GaussianFilter) (f2 m2 : Img),
        _conditional_downsampling resample2 gaussianFilter2 (fun _ => th) f2 m2 th
          = (f2, m2))) := by
  constructor
  · intro hge
    unfold _conditional_downsampling
    rw [if_neg]
    push_neg
    exact hge
  · intro hpos hdiag hzsq
    constructor
    · intro j
      have hz : zooms j ≠ 0 := (hpos j).ne.symm
      have ha : f.grid.rot j j ^ 2 = zooms j ^ 2 := by
        have h := hzsq j
        rw [Finset.sum_eq_single_of_mem j (Finset.mem_univ j)
          (fun i _ hij => by rw [hdiag i j hij]; norm_num)] at h
        exact h.symm
      have hrot : ∀ i, (downsampleGrid f.grid zooms th).rot i j
          = (th / zooms i) * f.grid.rot i j := fun i => rfl
      calc ∑ i, (downsampleGrid f.grid zooms th).rot i j ^ 2
          = ∑ i, ((th / zooms i) * f.grid.rot i j) ^ 2 := by
            simp only [hrot]
        _ = ((th / zooms j) * f.grid.rot j j) ^ 2 :=
            Finset.sum_eq_single_of_mem j (Finset.mem_univ j)
              (fun i _ hij => by rw [hdiag i j hij]; ring)
        _ = th ^ 2 * (f.grid.rot j j ^ 2 / zooms j ^ 2) := by
            rw [mul_pow, div_pow]
            ring
        _ = th ^ 2 := by
            rw [ha, div_self (pow_ne_zero 2 hz), mul_one]
    · intro resample2 gaussianFilter2 f2 m2
      unfold _conditional_downsampling
      rw [if_neg]
      push_neg
      exact fun j => le_refl th

/-- C6 witness: at voxel sizes all 5 ≥ 4 the call is a no-op, and for the
diagonal image with voxel sizes (1, 2, 8) the resampled grid's column norms
(squared) all equal the threshold 4 (squared). -/
theorem downsample_noop_and_diagonal_idempotence_witness :
    _conditional_downsampling wRes wGau (fun _ => (5 : ℚ)) wImg wImg 4 = (wImg, wImg) ∧
    ∑ i, (downsampleGrid wImg2.grid ![1, 2, 8] 4).rot i 0 ^ 2 = (4 : ℚ) ^ 2 := by
  constructor
  · exact (downsample_noop_and_diagonal_idempotence wRes wGau (fun _ => 5) wImg wImg 4).1
      (fun j => by norm_num)
  · refine ((downsample_noop_and_diagonal_idempotence wRes wGau ![1, 2, 8] wImg2 wImg2 4).2
      ?_ ?_ ?_).1 0
    · intro j
      fin_cases j <;> norm_num
    · intro i j hij
      fin_cases i <;> fin_cases j <;> first
        | exact absurd rfl hij
        | rfl
    · intro j
      fin_cases j <;>
        · rw [Fin.sum_univ_three]
          norm_num [wImg2, Matrix.vecHead, Matrix.vecTail]

lemma cexOut_rot :
    cexOut.1.grid.rot = Matrix.of ![![12 / 5, 0, 0], ![1, 4, 0], ![0, 0, 4]] := by
  have hcond : ∃ j, cexZooms j < 4 := ⟨2, by norm_num [cexZooms, Matrix.vecHead, Matrix.vecTail]⟩
  unfold cexOut _conditional_downsampling
  rw [if_pos hcond]
  ext i j
  fin_cases i <;> fin_cases j <;>
    norm_num [downsampleGrid, cexImg, cexRot, cexZooms, Matrix.vecHead, Matrix.vecTail]

lemma cexSecond_rot00 :
    (_conditional_downsampling cexRes cexGau cexZooms2 cexOut.1 cexOut.2 4).1.grid.rot 0 0
      = 48 / 13 := by
  have hcond : ∃ j, cexZooms2 j < 4 :=
    ⟨0, by norm_num [cexZooms2, Matrix.vecHead, Matrix.vecTail]⟩
  unfold _conditional_downsampling
  rw [if_pos hcond]
  dsimp only [downsampleGrid]
  rw [Matrix.of_apply]
  rw [cexOut_rot]
  norm_num [cexZooms2, Matrix.vecHead, Matrix.vecTail]

/-- C6 counterexample: for the image `cexImg`, whose voxel sizes (5, 16, 1)
have one entry below the threshold 4 (so the first call resamples), the
first call's output voxel sizes are (13/5, 4, 4) — not all equal to the
threshold, the first one below it — and a second call on the first call's
own output (with its true header voxel sizes) resamples again instead of
being a no-op.  This refutes the claimed idempotence. -/
theorem downsample_not_idempotent_cex :
    cexZooms 0 ^ 2 = ∑ i, cexImg.grid.rot i 0 ^ 2 ∧
    cexZooms 1 ^ 2 = ∑ i, cexImg.grid.rot i 1 ^ 2 ∧
    cexZooms 2 ^ 2 = ∑ i, cexImg.grid.rot i 2 ^ 2 ∧
    cexZooms 2 < 4 ∧
    cexZooms2 0 ^ 2 = ∑ i, cexOut.1.grid.rot i 0 ^ 2 ∧
    cexZooms2 1 ^ 2 = ∑ i, cexOut.1.grid.rot i 1 ^ 2 ∧
    cexZooms2 2 ^ 2 = ∑ i, cexOut.1.grid.rot i 2 ^ 2 ∧
    cexZooms2 0 < 4 ∧
    _conditional_downsampling cexRes cexGau cexZooms2 cexOut.1 cexOut.2 4
      ≠ (cexOut.1, cexOut.2) := by
  refine ⟨?_, ?_, ?_, ?_, ?_, ?_, ?_, ?_, ?_⟩
  · rw [Fin.sum_univ_three]
    norm_num [cexZooms, cexImg, cexRot, Matrix.vecHead, Matrix.vecTail]
  · rw [Fin.sum_univ_three]
    norm_num [cexZooms, cexImg, cexRot, Matrix.vecHead, Matrix.vecTail]
  · rw [Fin.sum_univ_three]
    norm_num [cexZooms, cexImg, cexRot, Matrix.vecHead, Matrix.vecTail]
  · norm_num [cexZooms, Matrix.vecHead, Matrix.vecTail]
  · rw [cexOut_rot, Fin.sum_univ_three]
    norm_num [cexZooms2, Matrix.vecHead, Matrix.vecTail]
  · rw [cexOut_rot, Fin.sum_univ_three]
    norm_num [cexZooms2, Matrix.vecHead, Matrix.vecTail]
  · rw [cexOut_rot, Fin.sum_univ_three]
    norm_num [cexZooms2, Matrix.vecHead, Matrix.vecTail]
  · norm_num [cexZooms2, Matrix.vecHead, Matrix.vecTail]
  · intro h
    have h00 := congrArg (fun q : Img × Img => q.1.grid.rot 0 0) h
    simp only at h00
    rw [cexSecond_rot00, cexOut_rot] at h00
    norm_num [Matrix.vecHead, Matrix.vecTail] at h00

/-- C8: in the workflows built with `use_bbr = None`, the boolean output of
`compare_xforms` is wired directly to the `index` input of the Select node
over `[BBR result, baseline result]`, so the selected transform is the
baseline exactly when the fallback boolean is true (index 1) and the BBR
result exactly when it is false (index 0). -/
theorem workflow_selects_by_fallback {α : Type} (bbr baseline : α)
    (r b : Mat4) (t : ℚ) :
    niuSelect (niuMerge2 bbr baseline) (pyBoolToIndex (compare_xforms (r, b) t))
      = some (if compare_xforms (r, b) t then baseline else bbr) := by
  cases h : compare_xforms (r, b) t <;> rfl

/-- C10: on every non-empty list of file names, `format_agg_rois` raises an
`AttributeError` — `.strip()` is invoked on the integer `len(rois) - 1` —
and never returns the documented `(first_image, op_files, op_string)`
triple. -/
theorem format_agg_rois_always_raises (rois : List String) (h : rois ≠ []) :
    format_agg_rois rois
        = Except.error "AttributeError: int object has no attribute strip" ∧
    ∀ v, format_agg_rois rois ≠ Except.ok v := by
  match rois, h with
  | r :: rest, _ =>
    refine ⟨rfl, fun v hv => ?_⟩
    rw [show format_agg_rois (r :: rest)
      = Except.error "AttributeError: int object has no attribute strip" from rfl] at hv
    exact Except.noConfusion hv

/-- C10 witness: the two-element list raises the attribute error. -/
theorem format_agg_rois_always_raises_witness :
    format_agg_rois ["a", "b"]
      = Except.error "AttributeError: int object has no attribute strip" :=
  (format_agg_rois_always_raises ["a", "b"] (by simp)).1

end Nibabies
